import Mathlib

/-!
# Verification of Cell (the Sphere packaging compiler), core subsystems

A shallow embedding of the SphereFS sandboxed path resolver (`src/cell/fs.c`),
the tool invocation bridge (`src/cell/tool.c`) and the build driver /
CommonJS loader (`src/cell/build.c`), together with theorems checking the
natural-language specification against the code.

The path algebra (`path.c`) and the visor (`visor.c`) are not part of the
provided sources; the definitions for those are modelled from the spec and
are marked as such in their doc comments.  Everything else is translated
from the C sources.
-/

/-- Modelled from the spec (path algebra, `path.c` is not in the sources):
a path is an ordered sequence of string hops, a trailing-separator flag
indicating directory-ness, and a rootedness (platform-absolute) flag.
Hops never contain the separator. -/
structure PathT where
  rooted : Bool
  hops : List String
  isDir : Bool
deriving DecidableEq, Repr

/-- Kernel-reducible string prefix test (character-list based). -/
def strHasPrefix (s pre : String) : Bool :=
  pre.data.isPrefixOf s.data

/-- Kernel-reducible test for a trailing separator. -/
def strEndsSep (s : String) : Bool :=
  s.data.getLast? = some '/' ∨ s.data.getLast? = some '\\'

/-- Split a character list into path hops at separators, dropping empty hops. -/
def splitHops (cs : List Char) (cur : List Char) : List String :=
  match cs with
  | [] => if cur.isEmpty then [] else [String.mk cur.reverse]
  | c :: rest =>
      if c = '/' ∨ c = '\\' then
        (if cur.isEmpty then [] else [String.mk cur.reverse]) ++ splitHops rest []
      else
        splitHops rest (c :: cur)

/-- Modelled from the spec: `path_new` parses a pathname into hops; a path is
platform-absolute (rooted) when it begins with a separator, and is a
directory path when it ends with one. -/
def path_new (s : String) : PathT :=
  { rooted := strHasPrefix s "/" ∨ strHasPrefix s "\\"
    hops := splitHops s.data []
    isDir := strEndsSep s }

/-- Modelled from the spec: `path_new_dir` parses a pathname as a directory
path (trailing-separator flag forced on). -/
def path_new_dir (s : String) : PathT :=
  { path_new s with isDir := true }

/-- Modelled from the spec: rebase prepends another path's hops.  A rooted
path is left unchanged. -/
def path_rebase (p : PathT) (base : PathT) : PathT :=
  if p.rooted then p else { p with hops := base.hops ++ p.hops }

/-- Modelled from the spec: `path_strip` drops the filename part, leaving a
directory path; a directory path is unchanged. -/
def path_strip (p : PathT) : PathT :=
  if p.isDir then p else { p with hops := p.hops.dropLast, isDir := true }

/-- Modelled from the spec: `path_to_dir` forces the directory flag. -/
def path_to_dir (p : PathT) : PathT :=
  { p with isDir := true }

/-- Modelled from the spec: `path_append` appends a parsed filename to a
path; directory-ness afterwards comes from the appended name. -/
def path_append (p : PathT) (filename : String) : PathT :=
  let q := path_new filename
  { p with hops := p.hops ++ q.hops, isDir := q.isDir }

/-- Modelled from the spec: collapse folds `.` and `..` hops, with a hard
stop at the root (`..` never escapes the first retained hop). -/
def collapseHops (hops : List String) : List String :=
  let step := fun (acc : List String) (h : String) =>
    if h = "." then acc
    else if h = ".." then acc.dropLast
    else acc ++ [h]
  hops.foldl step []

/-- Modelled from the spec: `path_collapse` with double-dot folding. -/
def path_collapse (p : PathT) : PathT :=
  { p with hops := collapseHops p.hops }

/-- Modelled from the spec: `path_filename` names the file part of a path;
a directory path has none. -/
def path_filename (p : PathT) : Option String :=
  if p.isDir then none else p.hops.getLast?

/-- Modelled from the spec: insert a hop at the front. -/
def path_insert_hop0 (p : PathT) (hop : String) : PathT :=
  { p with hops := hop :: p.hops }

/-- Modelled from the spec: remove the front hop. -/
def path_remove_hop0 (p : PathT) : PathT :=
  { p with hops := p.hops.tail }

/-- Modelled from the spec: render a path as a string, hops joined by the
separator, with a trailing separator on directory paths. -/
def path_cstr (p : PathT) : String :=
  (if p.rooted then "/" else "")
    ++ String.intercalate "/" p.hops
    ++ (if p.isDir ∧ ¬p.hops.isEmpty then "/" else "")

/-- The four real roots held by a SphereFS filesystem (`struct fs`), as hop
lists of real directories; the user root is optional (`fs_new` leaves it
NULL when no home directory is given). -/
structure SandboxFs where
  root_path : List String
  game_path : List String
  system_path : List String
  user_path : Option (List String)
deriving DecidableEq, Repr

/-- `resolve` from `fs.c`: reject platform-absolute paths; route the first
hop `$` / `@` / `#` / `~` to the source, output, system and user roots,
failing for `~` when no user root is configured; rebase anything else onto
the source root.  The function performs no collapsing. -/
def resolve (fs : SandboxFs) (filename : String) : Option (List String) :=
  let p := path_new filename
  if p.rooted then none
  else
    match p.hops with
    | [] => some fs.root_path
    | h :: rest =>
        if h = "$" then some (fs.root_path ++ rest)
        else if h = "@" then some (fs.game_path ++ rest)
        else if h = "#" then some (fs.system_path ++ rest)
        else if h = "~" then
          match fs.user_path with
          | none => none
          | some u => some (u ++ rest)
        else some (fs.root_path ++ p.hops)

/-- A concrete filesystem used by closed evaluation theorems. -/
def sampleFs : SandboxFs :=
  { root_path := ["home", "me", "proj"]
    game_path := ["home", "me", "out"]
    system_path := ["sys", "cell"]
    user_path := none }

example : resolve sampleFs "$/../secret" = some ["home", "me", "proj", "..", "secret"] := by decide

example : collapseHops ["home", "me", "proj", "..", "secret"] = ["home", "me", "secret"] := by decide

/-- `fs_full_path` from `fs.c`, base-directory argument NULL: canonicalize a
logical path by stripping the prefix hop (defaulting to `$`), collapsing the
remainder unconditionally, and reattaching the prefix. -/
def fs_full_path_nb (filename : String) : PathT :=
  let p := path_new filename
  if p.rooted then p
  else
    let pre0 := p.hops.head?.getD ""
    let validSingle := pre0 = "@" ∨ pre0 = "#" ∨ pre0 = "~" ∨ pre0 = "$"
    let pp := if ¬validSingle then (path_insert_hop0 p "$", "$") else (p, pre0)
    path_insert_hop0 (path_collapse (path_remove_hop0 pp.1)) pp.2

/-- `fs_full_path` from `fs.c` with an optional base directory: a path whose
first hop is not a single-character prefix is rebased onto the base
directory (itself canonicalized) when one is given, otherwise given the `$`
prefix; then the prefix hop is stripped, the remainder collapsed, and the
prefix reattached. -/
def fs_full_path (filename : String) (base_dir_name : Option String) : PathT :=
  let p := path_new filename
  if p.rooted then p
  else
    let basePath := base_dir_name.map (fun b => path_to_dir (fs_full_path_nb b))
    let pre0 := p.hops.head?.getD ""
    let validSingle := pre0 = "@" ∨ pre0 = "#" ∨ pre0 = "~" ∨ pre0 = "$"
    let pp :=
      if ¬validSingle then
        match basePath with
        | some bp =>
            let q := path_rebase p bp
            (q, q.hops.head?.getD "")
        | none => (path_insert_hop0 p "$", "$")
      else (p, pre0)
    path_insert_hop0 (path_collapse (path_remove_hop0 pp.1)) pp.2

/-- Length of the common hop prefix of two hop lists. -/
def commonPrefixLen : List String → List String → Nat
  | a :: as, b :: bs => if a = b then commonPrefixLen as bs + 1 else 0
  | _, _ => 0

/-- Modelled from the spec: relativize subtracts the common prefix with the
base directory, inserting a `..` hop for every base hop left over. -/
def path_relativize (p base : PathT) : PathT :=
  let cp := commonPrefixLen p.hops base.hops
  { p with hops := List.replicate (base.hops.length - cp) ".." ++ p.hops.drop cp }

/-- `fs_relative_path` from `fs.c`: canonicalize, then relativize against
the canonicalized base directory when the two share their first hop. -/
def fs_relative_path (filename : String) (base_dir_name : String) : PathT :=
  let p := fs_full_path_nb filename
  if p.rooted then p
  else
    let basePath := path_to_dir (fs_full_path_nb base_dir_name)
    if p.hops.head? = basePath.hops.head? ∧ basePath.hops ≠ [] then
      path_relativize p basePath
    else p

/-! ## File and diagnostics state

The file-state model identifies a file by its logical pathname string and
records its content and mtime; the visor is modelled from the spec
(`visor.c` is not in the sources): error and warning counters with message
logs, plus the accumulated artifact list. -/

/-- A diagnostic message, structured to mirror the format strings used in
the C sources. -/
inductive VisMsg where
  | conflict (n : Nat) (path : String)
  | thrown (text : String)
  | targetNotFound
  | targetUnchanged
  | missingField (field : String)
  | illegalMainPrefix (pre : String)
  | mainNotFound (path : String)
  | custom (text : String)
deriving DecidableEq, Repr

/-- Modelled from the spec: visor diagnostics state — error and warning
counters with their messages, and the artifact list accumulated this run. -/
structure Visor where
  num_errors : Nat
  num_warns : Nat
  errLog : List VisMsg
  warnLog : List VisMsg
  filenames : List String
deriving DecidableEq, Repr

/-- Modelled from the spec: `visor_error` increments the error counter and
records the message. -/
def visor_error (v : Visor) (m : VisMsg) : Visor :=
  { v with num_errors := v.num_errors + 1, errLog := v.errLog ++ [m] }

/-- Modelled from the spec: `visor_warn` increments the warning counter and
records the message. -/
def visor_warn (v : Visor) (m : VisMsg) : Visor :=
  { v with num_warns := v.num_warns + 1, warnLog := v.warnLog ++ [m] }

/-- A file on disk: its byte content and its mtime. -/
structure FileEntry where
  content : String
  mtime : Nat
deriving DecidableEq, Repr

/-- The mutable filesystem state: files by logical pathname, plus the set of
created directories. -/
structure FsSt where
  files : List (String × FileEntry)
  dirs : List String
deriving DecidableEq, Repr

/-- Association-list lookup by pathname. -/
def lookupA : List (String × FileEntry) → String → Option FileEntry
  | [], _ => none
  | e :: rest, p => if e.1 = p then some e.2 else lookupA rest p

/-- Remove every entry with the given pathname. -/
def removeA : List (String × FileEntry) → String → List (String × FileEntry)
  | [], _ => []
  | e :: rest, p => if e.1 = p then removeA rest p else e :: removeA rest p

/-- Set the mtime of every entry with the given pathname. -/
def utimeA : List (String × FileEntry) → String → Nat → List (String × FileEntry)
  | [], _, _ => []
  | e :: rest, p, now =>
      (if e.1 = p then (e.1, ⟨e.2.content, now⟩) else e) :: utimeA rest p now

def lookupFile (fs : FsSt) (path : String) : Option FileEntry :=
  lookupA fs.files path

def writeFile (fs : FsSt) (path : String) (content : String) (mtime : Nat) : FsSt :=
  { fs with files := (path, ⟨content, mtime⟩) :: removeA fs.files path }

def fsUnlink (fs : FsSt) (path : String) : FsSt :=
  { fs with files := removeA fs.files path }

def fsMkdir (fs : FsSt) (d : String) : FsSt :=
  { fs with dirs := d :: fs.dirs }

def fsUtime (fs : FsSt) (path : String) (now : Nat) : FsSt :=
  { fs with files := utimeA fs.files path now }

def statMtime (fs : FsSt) (path : String) : Option Nat :=
  (lookupFile fs path).map (·.mtime)

theorem lookupA_removeA_self (l : List (String × FileEntry)) (p : String) :
    lookupA (removeA l p) p = none := by
  induction l with
  | nil => rfl
  | cons e rest ih =>
      by_cases h : e.1 = p
      · simpa [removeA, h] using ih
      · simpa [removeA, lookupA, h] using ih

theorem lookupA_utimeA_self (l : List (String × FileEntry)) (p : String) (now : Nat) :
    lookupA (utimeA l p now) p = (lookupA l p).map (fun e => ⟨e.content, now⟩) := by
  induction l with
  | nil => rfl
  | cons e rest ih =>
      by_cases h : e.1 = p
      · simp [utimeA, lookupA, h]
      · simpa [utimeA, lookupA, h] using ih

theorem lookupFile_writeFile_self (fs : FsSt) (p c : String) (m : Nat) :
    lookupFile (writeFile fs p c m) p = some ⟨c, m⟩ := by
  simp [lookupFile, writeFile, lookupA]

theorem lookupFile_fsUnlink_self (fs : FsSt) (p : String) :
    lookupFile (fsUnlink fs p) p = none :=
  lookupA_removeA_self fs.files p

theorem lookupFile_fsMkdir (fs : FsSt) (d p : String) :
    lookupFile (fsMkdir fs d) p = lookupFile fs p := rfl

theorem lookupFile_fsUtime_self (fs : FsSt) (p : String) (now : Nat) :
    lookupFile (fsUtime fs p now) p = (lookupFile fs p).map (fun e => ⟨e.content, now⟩) :=
  lookupA_utimeA_self fs.files p now

/-! ## Tool invocation (`tool.c`) -/

/-- A tool: a named verb wrapping a script callback (the callback handle
itself lives in the JS heap and is abstracted by the `cb` argument of
`tool_run`). -/
structure Tool where
  verb : String
deriving DecidableEq, Repr

/-- The observable effect of running a tool's JS callback: the filesystem as
the callback leaves it, the error and warning messages it raised on the
visor, and the exception text when it threw. -/
structure CbOut where
  fs : FsSt
  errMsgs : List VisMsg
  warnMsgs : List VisMsg
  threw : Option String

/-- Apply a callback's visor effects to a visor. -/
def visorAdd (v : Visor) (errs warns : List VisMsg) : Visor :=
  { v with
    num_errors := v.num_errors + errs.length
    num_warns := v.num_warns + warns.length
    errLog := v.errLog ++ errs
    warnLog := v.warnLog ++ warns }

/-- The part of `tool_run` following the callback invocation, as a function
of the callback's observable effect `r`: report a thrown exception as a
visor error, fail when the error count rose during the call, then verify
the output (missing output is an error, an unchanged mtime is a warning)
and delete the output on failure. -/
def tool_run_post (vis : Visor) (last_mtime : Nat) (key : String) (r : CbOut) :
    Bool × Visor × FsSt :=
  let vis1 := visorAdd vis r.errMsgs r.warnMsgs
  let step2 : Visor × Bool :=
    match r.threw with
    | some txt => (visor_error vis1 (.thrown txt), false)
    | none => (vis1, true)
  let result_ok := step2.2 && decide (step2.1.num_errors ≤ vis.num_errors)
  if result_ok then
    match statMtime r.fs key with
    | none => (false, visor_error step2.1 .targetNotFound, r.fs)
    | some m =>
        if m = last_mtime then (true, visor_warn step2.1 .targetUnchanged, r.fs)
        else (true, step2.1, r.fs)
  else
    (false, step2.1, fsUnlink r.fs key)

/-- `tool_run` from `tool.c`.  A NULL tool returns true at once.  Otherwise
ensure the output's directory exists, capture the pre-build mtime (0 when
missing), invoke the callback, and verify the result. -/
def tool_run (tool : Option Tool) (cb : FsSt → CbOut) (vis : Visor) (fs : FsSt)
    (out : PathT) : Bool × Visor × FsSt :=
  match tool with
  | none => (true, vis, fs)
  | some _ =>
    let fs1 := fsMkdir fs (path_cstr (path_strip out))
    tool_run_post vis ((statMtime fs1 (path_cstr out)).getD 0) (path_cstr out) (cb fs1)

/-! ## The install tool (`install_target` in `build.c`, `fs_fcopy` in `fs.c`) -/

/-- `fs_fcopy` from `fs.c` with overwrite: create the destination's
directories, then byte-copy the source file onto the destination; fails
when the source does not exist. -/
def fs_fcopy (fs : FsSt) (now : Nat) (dest src : String) : Option FsSt :=
  let fs := fsMkdir fs (path_cstr (path_strip (path_new dest)))
  match lookupFile fs src with
  | none => none
  | some e => some (writeFile fs dest e.content now)

/-- `install_target` from `build.c`: copy the single source to the target
path, then touch the target's mtime to the current time; report success as
a boolean. -/
def install_target (fs : FsSt) (now : Nat) (target_path source_path : String) : Bool × FsSt :=
  match fs_fcopy fs now target_path source_path with
  | some fs1 => (true, fsUtime fs1 target_path now)
  | none => (false, fs)

/-! ## FileStream construction (`js_new_FileStream` in `build.c`) -/

/-- The kinds of JS errors thrown by the bindings. -/
inductive JsErrKind where
  | rangeError
  | typeError
  | referenceError
  | genericError
deriving DecidableEq, Repr

/-- An open file stream: the file it names and the stream position. -/
structure StreamSt where
  filename : String
  pos : Nat
deriving DecidableEq, Repr

/-- `js_new_FileStream` from `build.c`.  `FileOp` constants are Read = 0,
Write = 1, Update = 2.  An out-of-range op is a RangeError.  Update on a
missing file is downgraded to Write (`r+b` requires the file to exist);
Read maps to `rb` (file must exist, position 0), Write to `w+b` (create or
truncate, position 0), Update to `r+b` followed by a seek to the end. -/
def js_new_FileStream (fs : FsSt) (now : Nat) (filename : String) (file_op : Int) :
    Except JsErrKind (FsSt × StreamSt) :=
  if file_op < 0 ∨ 3 ≤ file_op then .error .rangeError
  else
    let op := if file_op = 2 ∧ (lookupFile fs filename).isNone then 1 else file_op
    if op = 0 then
      match lookupFile fs filename with
      | some _ => .ok (fs, ⟨filename, 0⟩)
      | none => .error .genericError
    else if op = 1 then
      .ok (writeFile fs filename "" now, ⟨filename, 0⟩)
    else
      match lookupFile fs filename with
      | some e => .ok (fs, ⟨filename, e.content.length⟩)
      | none => .error .genericError

/-! ## Claim C1 — SphereFS resolution -/

/-- The real root selected by a logical path's first hop (`~` may select
nothing when no user root is configured). -/
def selectedRoot (fs : SandboxFs) (p : PathT) : Option (List String) :=
  match p.hops.head? with
  | some "$" => some fs.root_path
  | some "@" => some fs.game_path
  | some "#" => some fs.system_path
  | some "~" => fs.user_path
  | _ => some fs.root_path

/-- The remainder of a logical path after stripping a recognized prefix
hop. -/
def strippedRem (p : PathT) : List String :=
  match p.hops.head? with
  | some "$" => p.hops.tail
  | some "@" => p.hops.tail
  | some "#" => p.hops.tail
  | some "~" => p.hops.tail
  | _ => p.hops

/-- Hop lists free of `.` and `..` components. -/
def noDotHops (l : List String) : Bool :=
  l.all (fun h => ¬(h = "." ∨ h = ".."))

theorem noDotHops_spec (l : List String) (hl : noDotHops l = true) :
    ∀ h ∈ l, h ≠ "." ∧ h ≠ ".." := by
  intro h hm
  have := (List.all_eq_true.mp hl) h hm
  simp only [decide_eq_true_eq] at this
  exact ⟨fun hc => this (Or.inl hc), fun hc => this (Or.inr hc)⟩

theorem collapseHops_foldl_noDots (l : List String) (acc : List String)
    (hl : ∀ h ∈ l, h ≠ "." ∧ h ≠ "..") :
    l.foldl (fun (acc : List String) (h : String) =>
      if h = "." then acc else if h = ".." then acc.dropLast else acc ++ [h]) acc
      = acc ++ l := by
  induction l generalizing acc with
  | nil => simp
  | cons h rest ih =>
      have hh := hl h (List.mem_cons_self _ _)
      have hrest : ∀ x ∈ rest, x ≠ "." ∧ x ≠ ".." :=
        fun x hx => hl x (List.mem_cons_of_mem _ hx)
      simp only [List.foldl_cons, if_neg hh.1, if_neg hh.2]
      rw [ih _ hrest]
      simp

theorem collapseHops_noDots (l : List String) (hl : noDotHops l = true) :
    collapseHops l = l := by
  simpa using collapseHops_foldl_noDots l [] (noDotHops_spec l hl)

/-- Claim C1 is false on the code: `resolve` performs no collapsing, so a
`$`-prefixed path with a `..` hop resolves to a real path that climbs above
the source root rather than failing. -/
theorem C1_counterexample :
    resolve sampleFs "$/../secret" = some ["home", "me", "proj", "..", "secret"] ∧
    sampleFs.root_path.isPrefixOf
      (collapseHops ["home", "me", "proj", "..", "secret"]) = false := by
  decide

/-- C1 (amended): `resolve` fails exactly when the path is platform-absolute
or its first hop is `~` with no user root configured; otherwise it returns
the remainder (after stripping a recognized `$`/`@`/`#`/`~` prefix hop)
rebased verbatim — without collapsing — onto the root selected by the first
hop, so the selected root is a syntactic prefix of the result, and when
neither the root nor the remainder contains `.` or `..` hops the result
also stays under the root after collapsing; a path containing `..` may
resolve to a real path that climbs above its root (see the
counterexample). -/
theorem C1_resolve_characterization (fs : SandboxFs) (s : String) :
    (resolve fs s = none ↔
      (path_new s).rooted = true ∨
        ((path_new s).hops.head? = some "~" ∧ fs.user_path = none)) ∧
    (∀ r, resolve fs s = some r →
      ∃ root, selectedRoot fs (path_new s) = some root ∧
        r = root ++ strippedRem (path_new s) ∧
        root.isPrefixOf r = true) ∧
    (∀ r root, resolve fs s = some r → selectedRoot fs (path_new s) = some root →
      noDotHops root = true → noDotHops (strippedRem (path_new s)) = true →
      root.isPrefixOf (collapseHops r) = true) := by
  have hpre : ∀ (root rem : List String), noDotHops root = true → noDotHops rem = true →
      root.isPrefixOf (collapseHops (root ++ rem)) = true := by
    intro root rem h1 h2
    have hall : ∀ h ∈ root ++ rem, h ≠ "." ∧ h ≠ ".." := by
      intro h hm
      rcases List.mem_append.mp hm with h' | h'
      · exact noDotHops_spec root h1 h h'
      · exact noDotHops_spec rem h2 h h'
    have h0 := collapseHops_foldl_noDots (root ++ rem) [] hall
    rw [List.nil_append] at h0
    have hc : collapseHops (root ++ rem) = root ++ rem := h0
    rw [hc]
    exact List.isPrefixOf_iff_prefix.mpr ⟨rem, rfl⟩
  set p := path_new s with hp
  unfold resolve
  rw [← hp]
  by_cases hr : p.rooted
  · simp only [hr, if_true]
    refine ⟨by simp, ?_, ?_⟩
    · intro r h; exact absurd h (by simp)
    · intro r root h; exact absurd h (by simp)
  · simp only [hr, Bool.false_eq_true, if_false]
    match hh : p.hops with
    | [] =>
        refine ⟨by simp [hr], ?_, ?_⟩
        · intro r h
          refine ⟨fs.root_path, by simp [selectedRoot, hh], ?_, ?_⟩
          · simpa [strippedRem, hh] using h.symm
          · have : r = fs.root_path := by simpa using h.symm
            simp [this, List.isPrefixOf_iff_prefix]
        · intro r root h hroot h1 h2
          have hr' : r = fs.root_path := by simpa using h.symm
          have hroot' : fs.root_path = root := by
            simpa [selectedRoot, hh] using hroot
          subst hr' hroot'
          simpa using hpre fs.root_path [] h1 rfl
    | h0 :: rest =>
        by_cases h1 : h0 = "$"
        · subst h1
          refine ⟨by simp [selectedRoot, hh], ?_, ?_⟩
          · intro r h
            refine ⟨fs.root_path, by simp [selectedRoot, hh], ?_, ?_⟩
            · simpa [strippedRem, hh] using h.symm
            · have : r = fs.root_path ++ rest := by simpa using h.symm
              simp [this, List.isPrefixOf_iff_prefix]
          · intro r root h hroot hnd1 hnd2
            have hr' : r = fs.root_path ++ rest := by simpa using h.symm
            have hroot' : fs.root_path = root := by
              simpa [selectedRoot, hh] using hroot
            subst hr' hroot'
            simp only [strippedRem, hh] at hnd2
            exact hpre fs.root_path rest hnd1 hnd2
        · by_cases h2 : h0 = "@"
          · subst h2
            refine ⟨by simp [selectedRoot, hh], ?_, ?_⟩
            · intro r h
              refine ⟨fs.game_path, by simp [selectedRoot, hh], ?_, ?_⟩
              · simpa [strippedRem, hh, h1] using h.symm
              · have : r = fs.game_path ++ rest := by simpa [h1] using h.symm
                simp [this, List.isPrefixOf_iff_prefix]
            · intro r root h hroot hnd1 hnd2
              have hr' : r = fs.game_path ++ rest := by simpa [h1] using h.symm
              have hroot' : fs.game_path = root := by
                simpa [selectedRoot, hh] using hroot
              subst hr' hroot'
              simp only [strippedRem, hh] at hnd2
              exact hpre fs.game_path rest hnd1 hnd2
          · by_cases h3 : h0 = "#"
            · subst h3
              refine ⟨by simp [selectedRoot, hh], ?_, ?_⟩
              · intro r h
                refine ⟨fs.system_path, by simp [selectedRoot, hh], ?_, ?_⟩
                · simpa [strippedRem, hh, h1, h2] using h.symm
                · have : r = fs.system_path ++ rest := by
                    simpa [h1, h2] using h.symm
                  simp [this, List.isPrefixOf_iff_prefix]
              · intro r root h hroot hnd1 hnd2
                have hr' : r = fs.system_path ++ rest := by
                  simpa [h1, h2] using h.symm
                have hroot' : fs.system_path = root := by
                  simpa [selectedRoot, hh] using hroot
                subst hr' hroot'
                simp only [strippedRem, hh] at hnd2
                exact hpre fs.system_path rest hnd1 hnd2
            · by_cases h4 : h0 = "~"
              · subst h4
                match hu : fs.user_path with
                | none =>
                    refine ⟨by simp [selectedRoot, hh, hu, h1, h2, h3], ?_, ?_⟩
                    · intro r h
                      exact absurd h (by simp [h1, h2, h3, hu])
                    · intro r root h
                      exact absurd h (by simp [h1, h2, h3, hu])
                | some u =>
                    refine ⟨by simp [selectedRoot, hh, hu, h1, h2, h3], ?_, ?_⟩
                    · intro r h
                      refine ⟨u, by simp [selectedRoot, hh, hu], ?_, ?_⟩
                      · simpa [strippedRem, hh, h1, h2, h3, hu] using h.symm
                      · have : r = u ++ rest := by
                          simpa [h1, h2, h3, hu] using h.symm
                        simp [this, List.isPrefixOf_iff_prefix]
                    · intro r root h hroot hnd1 hnd2
                      have hr' : r = u ++ rest := by
                        simpa [h1, h2, h3, hu] using h.symm
                      have hroot' : u = root := by
                        simpa [selectedRoot, hh, hu] using hroot
                      subst hr' hroot'
                      simp only [strippedRem, hh] at hnd2
                      exact hpre u rest hnd1 hnd2
              · have hsel : selectedRoot fs p = some fs.root_path := by
                  simp only [selectedRoot, hh, List.head?]
                  split
                  all_goals first
                    | rfl
                    | (exfalso; simp_all)
                have hstr : strippedRem p = h0 :: rest := by
                  simp only [strippedRem, hh, List.head?]
                  split
                  all_goals first
                    | rfl
                    | (exfalso; simp_all)
                refine ⟨by simp [h1, h2, h3, h4, hsel], ?_, ?_⟩
                · intro r h
                  refine ⟨fs.root_path, hsel, ?_, ?_⟩
                  · rw [hstr]
                    simpa [h1, h2, h3, h4, hh] using h.symm
                  · have : r = fs.root_path ++ (h0 :: rest) := by
                      simpa [h1, h2, h3, h4, hh] using h.symm
                    simp [this, List.isPrefixOf_iff_prefix]
                · intro r root h hroot hnd1 hnd2
                  have hr' : r = fs.root_path ++ (h0 :: rest) := by
                    simpa [h1, h2, h3, h4, hh] using h.symm
                  have hroot' : fs.root_path = root := by
                    rw [hsel] at hroot
                    exact Option.some_inj.mp hroot
                  subst hr' hroot'
                  rw [hstr] at hnd2
                  exact hpre fs.root_path (h0 :: rest) hnd1 hnd2

/-- Witness for the C1 theorem at a concrete filesystem and path. -/
theorem C1_witness :
    resolve sampleFs "@/images/a.png" = some ["home", "me", "out", "images", "a.png"] ∧
    (["home", "me", "out"] : List String).isPrefixOf
      (collapseHops ["home", "me", "out", "images", "a.png"]) = true := by
  have h := (C1_resolve_characterization sampleFs "@/images/a.png").2.2
    ["home", "me", "out", "images", "a.png"] ["home", "me", "out"]
    (by decide) (by decide) (by decide) (by decide)
  exact ⟨by decide, h⟩

/-! ## Claim C2 / C9 — tool invocation -/

/-- Core contract of `tool_run_post`, for every callback effect. -/
theorem tool_run_post_contract (vis : Visor) (lastm : Nat) (key : String) (r : CbOut) :
    ((tool_run_post vis lastm key r).1 = true →
      r.threw = none ∧ r.errMsgs = [] ∧
      (lookupFile (tool_run_post vis lastm key r).2.2 key).isSome = true ∧
      (tool_run_post vis lastm key r).2.1.num_errors = vis.num_errors) ∧
    ((tool_run_post vis lastm key r).1 = true →
      statMtime r.fs key = some lastm →
      (tool_run_post vis lastm key r).2.1.num_warns =
        vis.num_warns + r.warnMsgs.length + 1) ∧
    ((tool_run_post vis lastm key r).1 = false →
      lookupFile (tool_run_post vis lastm key r).2.2 key = none) := by
  obtain ⟨rfs, errs, warns, threw⟩ := r
  cases threw with
  | some txt =>
      refine ⟨?_, ?_, ?_⟩
      · intro h; exact absurd h (by simp [tool_run_post])
      · intro h; exact absurd h (by simp [tool_run_post])
      · intro _
        simp only [tool_run_post, Bool.false_and]
        exact lookupFile_fsUnlink_self _ _
  | none =>
      by_cases he : (visorAdd vis errs warns).num_errors ≤ vis.num_errors
      · have hlen : errs.length = 0 := by
          simp only [visorAdd] at he; omega
        have hnil : errs = [] := List.length_eq_zero.mp hlen
        match hm : statMtime rfs key with
        | none =>
            refine ⟨?_, ?_, ?_⟩
            · intro h
              exact absurd h (by simp [tool_run_post, he, hm])
            · intro h
              exact absurd h (by simp [tool_run_post, he, hm])
            · intro _
              simp only [tool_run_post, he, decide_True, Bool.true_and, if_true, hm]
              simpa [lookupFile, statMtime, Option.map_eq_none] using hm
        | some m =>
            have hsome : (lookupFile rfs key).isSome = true := by
              rcases hl : lookupFile rfs key with _ | e
              · simp [statMtime, hl] at hm
              · rfl
            by_cases heq : m = lastm
            · refine ⟨?_, ?_, ?_⟩
              · intro _
                refine ⟨rfl, hnil, ?_, ?_⟩
                · simpa [tool_run_post, he, hm, heq] using hsome
                · simp [tool_run_post, he, hm, heq, visor_warn, visorAdd, hlen]
              · intro _ _
                simp [tool_run_post, he, hm, heq, hnil, visor_warn, visorAdd]
              · intro h
                exact absurd h (by simp [tool_run_post, he, hm, heq])
            · refine ⟨?_, ?_, ?_⟩
              · intro _
                refine ⟨rfl, hnil, ?_, ?_⟩
                · simpa [tool_run_post, he, hm, heq] using hsome
                · simp [tool_run_post, he, hm, heq, visorAdd, hlen]
              · intro _ hpost
                exact absurd (Option.some_inj.mp hpost) heq
              · intro h
                exact absurd h (by simp [tool_run_post, he, hm, heq])
      · refine ⟨?_, ?_, ?_⟩
        · intro h
          exact absurd h (by simp [tool_run_post, he])
        · intro h
          exact absurd h (by simp [tool_run_post, he])
        · intro _
          simp only [tool_run_post, he, decide_False, Bool.and_false]
          exact lookupFile_fsUnlink_self _ _

/-- Claim C2: for a tool with a callback, `tool_run` returns true only when
the callback did not throw, raised no visor errors, and the output file
exists afterwards (with the error count unchanged); when the output existed
before the run and still has its pre-build mtime afterwards, exactly one
extra warning and no error is emitted; and whenever `tool_run` returns
false the output file is absent from the final state. -/
theorem C2_tool_run_contract (t : Tool) (cb : FsSt → CbOut) (vis : Visor)
    (fs : FsSt) (out : PathT) :
    ((tool_run (some t) cb vis fs out).1 = true →
      (cb (fsMkdir fs (path_cstr (path_strip out)))).threw = none ∧
      (cb (fsMkdir fs (path_cstr (path_strip out)))).errMsgs = [] ∧
      (lookupFile (tool_run (some t) cb vis fs out).2.2 (path_cstr out)).isSome = true ∧
      (tool_run (some t) cb vis fs out).2.1.num_errors = vis.num_errors) ∧
    ((tool_run (some t) cb vis fs out).1 = true →
      ∀ m, statMtime fs (path_cstr out) = some m →
        statMtime (cb (fsMkdir fs (path_cstr (path_strip out)))).fs (path_cstr out) = some m →
        (tool_run (some t) cb vis fs out).2.1.num_warns =
          vis.num_warns + (cb (fsMkdir fs (path_cstr (path_strip out)))).warnMsgs.length + 1) ∧
    ((tool_run (some t) cb vis fs out).1 = false →
      lookupFile (tool_run (some t) cb vis fs out).2.2 (path_cstr out) = none) := by
  have hbase := tool_run_post_contract vis
    ((statMtime (fsMkdir fs (path_cstr (path_strip out))) (path_cstr out)).getD 0)
    (path_cstr out) (cb (fsMkdir fs (path_cstr (path_strip out))))
  have hrun : tool_run (some t) cb vis fs out
      = tool_run_post vis
        ((statMtime (fsMkdir fs (path_cstr (path_strip out))) (path_cstr out)).getD 0)
        (path_cstr out) (cb (fsMkdir fs (path_cstr (path_strip out)))) := rfl
  rw [hrun]
  refine ⟨hbase.1, ?_, hbase.2.2⟩
  intro hok m hpre hpost
  have hpre' : statMtime (fsMkdir fs (path_cstr (path_strip out))) (path_cstr out) = some m := hpre
  have : (statMtime (fsMkdir fs (path_cstr (path_strip out))) (path_cstr out)).getD 0 = m := by
    rw [hpre']; rfl
  exact hbase.2.1 hok (by rw [this]; exact hpost)

/-- A concrete callback for the C2 witness: rewrites the output file with
the mtime it already had, raising no diagnostics. -/
def sampleCb : FsSt → CbOut :=
  fun fs => ⟨writeFile fs "@/out.bin" "XY" 5, [], [], none⟩

/-- A quiet visor for witnesses. -/
def sampleVisor : Visor := ⟨0, 0, [], [], []⟩

/-- A filesystem that already holds the output file, for the C2 witness. -/
def sampleToolFs : FsSt := ⟨[("@/out.bin", ⟨"X", 5⟩)], []⟩

/-- Witness for C2: at a concrete run whose callback rewrites the output
with an unchanged mtime, the no-op warning fires exactly once. -/
theorem C2_witness :
    (tool_run (some ⟨"building"⟩) sampleCb sampleVisor sampleToolFs
      (path_new "@/out.bin")).2.1.num_warns = 1 := by
  have h := (C2_tool_run_contract ⟨"building"⟩ sampleCb sampleVisor sampleToolFs
    (path_new "@/out.bin")).2.1 (by decide) 5 (by decide) (by decide)
  simpa [sampleCb, sampleVisor] using h

/-- Claim C9: `tool_run` with a NULL tool returns true at once, for every
callback, leaving the visor counters and the filesystem (files and
directories alike) untouched. -/
theorem C9_null_tool_run (cb : FsSt → CbOut) (vis : Visor) (fs : FsSt) (out : PathT) :
    tool_run none cb vis fs out = (true, vis, fs) := rfl

/-! ## Claim C7 — the install tool -/

/-- Claim C7: building an install target byte-copies the single source file
to the destination — the output content equals the source content — and
stamps the destination mtime with the current time. -/
theorem C7_install_copies (fs : FsSt) (now : Nat) (dest src : String) (e : FileEntry)
    (h : lookupFile fs src = some e) :
    (install_target fs now dest src).1 = true ∧
    lookupFile (install_target fs now dest src).2 dest = some ⟨e.content, now⟩ := by
  have hsrc : lookupFile (fsMkdir fs (path_cstr (path_strip (path_new dest)))) src
      = some e := h
  constructor
  · simp [install_target, fs_fcopy, hsrc]
  · simp only [install_target, fs_fcopy, hsrc]
    rw [lookupFile_fsUtime_self, lookupFile_writeFile_self]
    rfl

/-- Witness for C7 at a concrete filesystem. -/
theorem C7_witness :
    (install_target ⟨[("$/src/a.txt", ⟨"A", 3⟩)], []⟩ 9 "@/a.txt" "$/src/a.txt").1 = true ∧
    lookupFile (install_target ⟨[("$/src/a.txt", ⟨"A", 3⟩)], []⟩ 9 "@/a.txt" "$/src/a.txt").2
      "@/a.txt" = some ⟨"A", 9⟩ :=
  C7_install_copies ⟨[("$/src/a.txt", ⟨"A", 3⟩)], []⟩ 9 "@/a.txt" "$/src/a.txt" ⟨"A", 3⟩ (by decide)

/-! ## Claim C10 — FileStream construction -/

/-- Claim C10: constructing a FileStream with FileOp.Update (2) on a missing
file silently downgrades to FileOp.Write — the file is created truncated
and the constructor succeeds — while on an existing file Update opens it
without truncation (the filesystem is unchanged) and positions the stream
at the end of the file. -/
theorem C10_filestream_update (fs : FsSt) (now : Nat) (fn : String) :
    (lookupFile fs fn = none →
      js_new_FileStream fs now fn 2 = .ok (writeFile fs fn "" now, ⟨fn, 0⟩)) ∧
    (∀ e, lookupFile fs fn = some e →
      js_new_FileStream fs now fn 2 = .ok (fs, ⟨fn, e.content.length⟩)) := by
  constructor
  · intro h
    simp [js_new_FileStream, h]
  · intro e h
    simp [js_new_FileStream, h]

/-- Witness for C10 on one missing and one present file. -/
theorem C10_witness :
    js_new_FileStream ⟨[("@/log.txt", ⟨"abc", 4⟩)], []⟩ 7 "@/new.txt" 2
      = .ok (writeFile ⟨[("@/log.txt", ⟨"abc", 4⟩)], []⟩ "@/new.txt" "" 7, ⟨"@/new.txt", 0⟩) ∧
    js_new_FileStream ⟨[("@/log.txt", ⟨"abc", 4⟩)], []⟩ 7 "@/log.txt" 2
      = .ok (⟨[("@/log.txt", ⟨"abc", 4⟩)], []⟩, ⟨"@/log.txt", 3⟩) :=
  ⟨(C10_filestream_update ⟨[("@/log.txt", ⟨"abc", 4⟩)], []⟩ 7 "@/new.txt").1 (by decide),
   (C10_filestream_update ⟨[("@/log.txt", ⟨"abc", 4⟩)], []⟩ 7 "@/log.txt").2 ⟨"abc", 4⟩ (by decide)⟩

/-! ## Claim C5 — CommonJS module caching (`eval_cjs_module` in `build.c`)

The JS engine is abstracted to what `eval_cjs_module` observes of it: a
module cache keyed by canonical filename, object identities for `exports`
(fresh numeric ids standing for heap pointers), and a ghost log of the
filenames whose bodies were executed.  A module body is abstracted to the
sequence of its observable actions: reassigning `module.exports`,
requiring another (already-resolved) module, or throwing. -/

/-- One observable action of a module body. -/
inductive Instr where
  | setExports
  | require (id : String)
  | throwErr
deriving DecidableEq, Repr

/-- A cached module record: the identity of its `exports` object and its
`loaded` flag. -/
structure ModuleRec where
  exports : Nat
  loaded : Bool
deriving DecidableEq, Repr

/-- The loader-visible JS state: the module cache in the global stash, a
fresh-object allocator, and a ghost log of executed module bodies. -/
structure JsState where
  cache : List (String × ModuleRec)
  nextId : Nat
  execLog : List String
deriving DecidableEq, Repr

def lookupM : List (String × ModuleRec) → String → Option ModuleRec
  | [], _ => none
  | e :: rest, fn => if e.1 = fn then some e.2 else lookupM rest fn

def removeM : List (String × ModuleRec) → String → List (String × ModuleRec)
  | [], _ => []
  | e :: rest, fn => if e.1 = fn then removeM rest fn else e :: removeM rest fn

def updExportsM : List (String × ModuleRec) → String → Nat → List (String × ModuleRec)
  | [], _, _ => []
  | e :: rest, fn, v =>
      (if e.1 = fn then (e.1, { e.2 with exports := v }) else e) :: updExportsM rest fn v

def setLoadedM : List (String × ModuleRec) → String → List (String × ModuleRec)
  | [], _ => []
  | e :: rest, fn =>
      (if e.1 = fn then (e.1, { e.2 with loaded := true }) else e) :: setLoadedM rest fn

theorem lookupM_removeM_self (c : List (String × ModuleRec)) (fn : String) :
    lookupM (removeM c fn) fn = none := by
  induction c with
  | nil => rfl
  | cons e rest ih =>
      by_cases h : e.1 = fn
      · simpa [removeM, h] using ih
      · simpa [removeM, lookupM, h] using ih

theorem lookupM_removeM_ne (c : List (String × ModuleRec)) (fn g : String) (h : fn ≠ g) :
    lookupM (removeM c g) fn = lookupM c fn := by
  induction c with
  | nil => rfl
  | cons e rest ih =>
      by_cases he : e.1 = g
      · rw [removeM]
        simp only [he, if_true]
        rw [ih, lookupM]
        have : e.1 ≠ fn := by rw [he]; exact fun hc => h hc.symm
        simp [this]
      · rw [removeM]
        simp only [he, if_false]
        rw [lookupM, lookupM]
        by_cases hf : e.1 = fn
        · simp [hf]
        · simp [hf, ih]

theorem lookupM_updExportsM (c : List (String × ModuleRec)) (fn g : String) (v : Nat) :
    lookupM (updExportsM c g v) fn =
      if fn = g then (lookupM c fn).map (fun m => { m with exports := v })
      else lookupM c fn := by
  induction c with
  | nil => simp [updExportsM, lookupM]
  | cons e rest ih =>
      by_cases he : e.1 = g
      · by_cases hf : fn = g
        · simp [updExportsM, lookupM, he, hf, he.trans hf.symm, ih]
        · have hgf : ¬(g = fn) := fun hc => hf hc.symm
          simp [updExportsM, lookupM, he, hf, hgf, ih]
      · by_cases hf : e.1 = fn
        · have : ¬(fn = g) := by rw [← hf]; exact he
          simp [updExportsM, lookupM, he, hf, this]
        · simp [updExportsM, lookupM, he, hf, ih]

theorem lookupM_setLoadedM (c : List (String × ModuleRec)) (fn g : String) :
    lookupM (setLoadedM c g) fn =
      if fn = g then (lookupM c fn).map (fun m => { m with loaded := true })
      else lookupM c fn := by
  induction c with
  | nil => simp [setLoadedM, lookupM]
  | cons e rest ih =>
      by_cases he : e.1 = g
      · by_cases hf : fn = g
        · simp [setLoadedM, lookupM, he, hf, he.trans hf.symm, ih]
        · have hgf : ¬(g = fn) := fun hc => hf hc.symm
          simp [setLoadedM, lookupM, he, hf, hgf, ih]
      · by_cases hf : e.1 = fn
        · have : ¬(fn = g) := by rw [← hf]; exact he
          simp [setLoadedM, lookupM, he, hf, this]
        · simp [setLoadedM, lookupM, he, hf, ih]

/-- Run a module body, one action at a time, given an evaluator `ev` for
nested `require`s.  Returns the final state and whether the body completed
without throwing; an exception from a nested require propagates. -/
def runBody (ev : JsState → String → JsState × Option Nat) :
    JsState → String → List Instr → JsState × Bool
  | st, _, [] => (st, true)
  | st, fn, .setExports :: rest =>
      runBody ev
        { st with cache := updExportsM st.cache fn st.nextId, nextId := st.nextId + 1 }
        fn rest
  | st, _, .throwErr :: _ => (st, false)
  | st, fn, .require g :: rest =>
      match ev st g with
      | (st1, some _) => runBody ev st1 fn rest
      | (st1, none) => (st1, false)

/-- `eval_cjs_module` from `build.c` (code-module path), fuel-indexed.  A
cached filename returns the cached record's `exports` without executing
anything.  Otherwise a fresh module record (fresh `exports` object,
`loaded = false`) is inserted into the cache *before* the body runs; on
success `loaded` is set and the record's (possibly reassigned) `exports`
is returned; if the body threw, the record is removed from the cache and
the error propagates (`none`). -/
def evalModule (env : String → List Instr) : Nat → JsState → String → JsState × Option Nat
  | 0, st, _ => (st, none)
  | fuel + 1, st, fn =>
      match lookupM st.cache fn with
      | some m => (st, some m.exports)
      | none =>
          let st1 : JsState :=
            { cache := (fn, ⟨st.nextId, false⟩) :: st.cache
              nextId := st.nextId + 1
              execLog := st.execLog ++ [fn] }
          match runBody (evalModule env fuel) st1 fn (env fn) with
          | (st2, true) =>
              let st3 : JsState := { st2 with cache := setLoadedM st2.cache fn }
              match lookupM st3.cache fn with
              | some m => (st3, some m.exports)
              | none => (st3, none)
          | (st2, false) =>
              ({ st2 with cache := removeM st2.cache fn }, none)

/-- Preservation property for an evaluator: once `fn` is cached, any
evaluation keeps it cached and never executes `fn`'s body. -/
def PreservesMod (fn : String) (ev : JsState → String → JsState × Option Nat) : Prop :=
  ∀ st g, (lookupM st.cache fn).isSome = true →
    (lookupM ((ev st g).1).cache fn).isSome = true ∧
    ((ev st g).1).execLog.count fn = st.execLog.count fn

theorem runBody_preserves (fn : String) (ev : JsState → String → JsState × Option Nat)
    (hev : PreservesMod fn ev) (l : List Instr) :
    ∀ (st : JsState) (fn' : String), (lookupM st.cache fn).isSome = true →
      (lookupM ((runBody ev st fn' l).1).cache fn).isSome = true ∧
      ((runBody ev st fn' l).1).execLog.count fn = st.execLog.count fn := by
  induction l with
  | nil => intro st fn' h; exact ⟨h, rfl⟩
  | cons i rest ih =>
      intro st fn' h
      match i with
      | .setExports =>
          have h1 : (lookupM (updExportsM st.cache fn' st.nextId) fn).isSome = true := by
            rw [lookupM_updExportsM]
            by_cases hf : fn = fn'
            · subst hf; simp [h]
            · simp [hf, h]
          exact ih _ fn' h1
      | .throwErr => exact ⟨h, rfl⟩
      | .require g =>
          have hg := hev st g h
          match hevg : ev st g with
          | (st1, some v) =>
              rw [hevg] at hg
              have := ih st1 fn' hg.1
              simp only [runBody, hevg]
              exact ⟨this.1, this.2.trans hg.2⟩
          | (st1, none) =>
              rw [hevg] at hg
              simp only [runBody, hevg]
              exact hg

theorem evalModule_preserves (env : String → List Instr) (fn : String) :
    ∀ fuel, PreservesMod fn (evalModule env fuel) := by
  intro fuel
  induction fuel with
  | zero => intro st g h; exact ⟨h, rfl⟩
  | succ fuel ih =>
      intro st g h
      match hc : lookupM st.cache g with
      | some m =>
          simp only [evalModule, hc]
          exact ⟨h, by simp⟩
      | none =>
          have hgf : fn ≠ g := by
            intro hcon
            rw [hcon] at h
            rw [hc] at h
            simp at h
          have h1 : (lookupM ((g, ⟨st.nextId, false⟩) :: st.cache) fn).isSome = true := by
            have : g ≠ fn := fun hcon => hgf hcon.symm
            simp [lookupM, this, h]
          have hcount1 :
              (st.execLog ++ [g]).count fn = st.execLog.count fn := by
            simp [List.count_append, List.count_singleton, hgf]
          have hrb := runBody_preserves fn (evalModule env fuel) ih (env g)
            { cache := (g, ⟨st.nextId, false⟩) :: st.cache
              nextId := st.nextId + 1
              execLog := st.execLog ++ [g] } g h1
          simp only [evalModule, hc]
          generalize hrbe : runBody (evalModule env fuel)
            { cache := (g, ⟨st.nextId, false⟩) :: st.cache
              nextId := st.nextId + 1
              execLog := st.execLog ++ [g] } g (env g) = rb
          rw [hrbe] at hrb
          obtain ⟨st2, ok⟩ := rb
          cases ok with
          | true =>
              have h2 : (lookupM (setLoadedM st2.cache g) fn).isSome = true := by
                rw [lookupM_setLoadedM]
                simp [hgf, hrb.1]
              rcases hlg : lookupM (setLoadedM st2.cache g) g with _ | mg
              all_goals simp only [hlg]
              · exact ⟨h2, by simpa using hrb.2.trans hcount1⟩
              · exact ⟨h2, by simpa using hrb.2.trans hcount1⟩
          | false =>
              refine ⟨?_, by simpa using hrb.2.trans hcount1⟩
              simp only []
              rw [lookupM_removeM_ne _ _ _ hgf]
              exact hrb.1

/-- Claim C5: `eval_cjs_module` inserts the module record into the cache
before executing the body — so even a body that requires its own filename
executes exactly once (the ghost execution log gains exactly one entry for
the filename) — and removes the record when the body throws; after a
successful load, evaluating the same canonical filename again (any fuel)
returns the very same exports object and executes nothing. -/
theorem C5_module_cache (env : String → List Instr) (fuel : Nat) (st : JsState)
    (fn : String) (hnc : lookupM st.cache fn = none) :
    (∀ st1 e, evalModule env (fuel + 1) st fn = (st1, some e) →
      st1.execLog.count fn = st.execLog.count fn + 1 ∧
      (∃ m, lookupM st1.cache fn = some m ∧ m.exports = e) ∧
      ∀ f2, evalModule env (f2 + 1) st1 fn = (st1, some e)) ∧
    (∀ st1, evalModule env (fuel + 1) st fn = (st1, none) →
      lookupM st1.cache fn = none) := by
  have hin : (lookupM ((fn, (⟨st.nextId, false⟩ : ModuleRec)) :: st.cache) fn).isSome = true := by
    simp [lookupM]
  have hrb := runBody_preserves fn (evalModule env fuel)
    (evalModule_preserves env fn fuel) (env fn)
    { cache := (fn, ⟨st.nextId, false⟩) :: st.cache
      nextId := st.nextId + 1
      execLog := st.execLog ++ [fn] } fn hin
  have hcount1 :
      ((st.execLog ++ [fn]).count fn) = st.execLog.count fn + 1 := by
    simp [List.count_append, List.count_singleton]
  have hsplit : ∀ stf (res : Option Nat), evalModule env (fuel + 1) st fn = (stf, res) →
      (∃ st2 m3, runBody (evalModule env fuel)
          { cache := (fn, ⟨st.nextId, false⟩) :: st.cache
            nextId := st.nextId + 1
            execLog := st.execLog ++ [fn] } fn (env fn) = (st2, true) ∧
        lookupM (setLoadedM st2.cache fn) fn = some m3 ∧
        stf = { st2 with cache := setLoadedM st2.cache fn } ∧ res = some m3.exports) ∨
      (∃ st2, runBody (evalModule env fuel)
          { cache := (fn, ⟨st.nextId, false⟩) :: st.cache
            nextId := st.nextId + 1
            execLog := st.execLog ++ [fn] } fn (env fn) = (st2, false) ∧
        stf = { st2 with cache := removeM st2.cache fn } ∧ res = none) := by
    intro stf res heq
    rw [evalModule] at heq
    rw [hnc] at heq
    dsimp only at heq
    revert heq
    generalize hrbe : runBody (evalModule env fuel)
      { cache := (fn, ⟨st.nextId, false⟩) :: st.cache
        nextId := st.nextId + 1
        execLog := st.execLog ++ [fn] } fn (env fn) = rb
    obtain ⟨st2, ok⟩ := rb
    cases ok with
    | true =>
        rw [hrbe] at hrb
        have h2 : (lookupM (setLoadedM st2.cache fn) fn).isSome = true := by
          rw [lookupM_setLoadedM]
          simp [hrb.1]
        rcases hl3 : lookupM (setLoadedM st2.cache fn) fn with _ | m3
        · rw [hl3] at h2; simp at h2
        · intro heq
          simp only [hl3] at heq
          left
          refine ⟨st2, m3, rfl, hl3, ?_, ?_⟩
          · exact (congrArg Prod.fst heq).symm
          · exact (congrArg Prod.snd heq).symm
    | false =>
        intro heq
        right
        refine ⟨st2, rfl, ?_, ?_⟩
        · exact (congrArg Prod.fst heq).symm
        · exact (congrArg Prod.snd heq).symm
  constructor
  · intro stf e heq
    rcases hsplit stf (some e) heq with
      ⟨st2, m3, hrbe, hl3, hstf, hres⟩ | ⟨st2, hrbe, hstf, hres⟩
    · rw [hrbe] at hrb
      have he : e = m3.exports := Option.some_inj.mp hres
      subst hstf
      refine ⟨by simpa using hrb.2.trans hcount1, ⟨m3, hl3, he.symm⟩, ?_⟩
      intro f2
      rw [evalModule]
      simp only [hl3, he]
    · exact absurd hres (by simp)
  · intro stf heq
    rcases hsplit stf none heq with
      ⟨st2, m3, hrbe, hl3, hstf, hres⟩ | ⟨st2, hrbe, hstf, hres⟩
    · exact absurd hres (by simp)
    · subst hstf
      exact lookupM_removeM_self _ _

/-- The module environment used by the C5 witness: every module body just
reassigns its exports once. -/
def sampleEnv : String → List Instr := fun _ => [Instr.setExports]

/-- The state after loading `$/lib/m.js` in the C5 witness scenario. -/
def sampleLoaded : JsState :=
  { cache := [("$/lib/m.js", ⟨1, true⟩)], nextId := 2, execLog := ["$/lib/m.js"] }

/-- Witness for C5: loading a concrete module executes its body once,
caches it, and a second load returns the same exports object unchanged. -/
theorem C5_witness :
    sampleLoaded.execLog.count "$/lib/m.js" = 1 ∧
    (∃ m, lookupM sampleLoaded.cache "$/lib/m.js" = some m ∧ m.exports = 1) ∧
    evalModule sampleEnv 4 sampleLoaded "$/lib/m.js" = (sampleLoaded, some 1) := by
  have h := (C5_module_cache sampleEnv 1 ⟨[], 0, []⟩ "$/lib/m.js" rfl).1
    sampleLoaded 1 (by decide)
  exact ⟨by simpa using h.1, h.2.1, h.2.2 3⟩

/-! ## Claim C6 — module resolution (`find_cjs_module` / `js_require` in `build.c`)

The filesystem is abstracted to an existence oracle on candidate paths, and
`load_package_json`'s file slurp + JSON decode + `main` lookup to an oracle
giving the decoded `main` string of a package.json path (none when the file
cannot be read, fails to decode, or lacks a string `main`). -/

/-- The candidate-filename templates of `find_cjs_module`, in source order. -/
def moduleSuffixes : List (String → String) :=
  [fun s => s,
   fun s => s ++ ".mjs",
   fun s => s ++ ".js",
   fun s => s ++ ".json",
   fun s => s ++ "/package.json",
   fun s => s ++ "/index.mjs",
   fun s => s ++ "/index.js",
   fun s => s ++ "/index.json"]

/-- Does the specifier begin with one of the SphereFS prefixes, as tested by
`find_cjs_module`? -/
def hasFsPrefix (id : String) : Bool :=
  strHasPrefix id "@/" ∨ strHasPrefix id "$/" ∨ strHasPrefix id "~/" ∨ strHasPrefix id "#/"

/-- Is the specifier relative (`./` or `../`)? -/
def isRelativeId (id : String) : Bool :=
  strHasPrefix id "./" ∨ strHasPrefix id "../"

/-- The base the candidates are resolved against: the origin module's
filename for a relative specifier (or `./` when there is none), else the
designated module repository. -/
def originPathOf (id : String) (origin : Option String) (sys_origin : String) : PathT :=
  if isRelativeId id then path_new (origin.getD "./") else path_new_dir sys_origin

/-- One candidate path: prefixed specifiers are canonicalized with
`fs_full_path`; others are appended to the stripped base and collapsed. -/
def candidateOf (id : String) (origin : Option String) (sys_origin : String)
    (filename : String) : PathT :=
  if hasFsPrefix id then fs_full_path filename none
  else path_collapse (path_append (path_strip (originPathOf id origin sys_origin)) filename)

/-- `load_package_json` from `build.c`: read the decoded `main` field, build
`<dir of package.json>/<main>` collapsed, and require that file to exist. -/
def load_package_json (mf : PathT → Option String) (ex : PathT → Bool)
    (file : PathT) : Option PathT :=
  match mf file with
  | none => none
  | some m =>
      let p := path_collapse (path_append (path_strip file) m)
      if ex p then some p else none

/-- The candidate loop of `find_cjs_module`: the first candidate that exists
is returned, except that a candidate whose filename is `package.json` is
redirected through its `main` field (skipping to the next candidate when
that fails). -/
def findLoop (ex : PathT → Bool) (mf : PathT → Option String) (id : String)
    (origin : Option String) (sys_origin : String) :
    List (String → String) → Option PathT
  | [] => none
  | tmpl :: rest =>
      let path := candidateOf id origin sys_origin (tmpl id)
      if ex path then
        if path_filename path ≠ some "package.json" then some path
        else
          match load_package_json mf ex path with
          | none => findLoop ex mf id origin sys_origin rest
          | some mp =>
              if ex mp then some mp else findLoop ex mf id origin sys_origin rest
      else findLoop ex mf id origin sys_origin rest

/-- `find_cjs_module` from `build.c`. -/
def find_cjs_module (ex : PathT → Bool) (mf : PathT → Option String) (id : String)
    (origin : Option String) (sys_origin : String) : Option PathT :=
  findLoop ex mf id origin sys_origin moduleSuffixes

/-- The claim's reading of the resolution order: try `<id>`, `<id>.mjs`,
`<id>.js`, `<id>.json`, `<id>/package.json` (honoring its `main`),
`<id>/index.mjs`, `<id>/index.js`, `<id>/index.json`, returning the first
existing candidate, with `main` redirection applying only to the explicit
`<id>/package.json` candidate. -/
def find_cjs_module_claim (ex : PathT → Bool) (mf : PathT → Option String) (id : String)
    (origin : Option String) (sys_origin : String) : Option PathT :=
  let cand := candidateOf id origin sys_origin
  let tryPlain := fun (fname : String) =>
    let p := cand fname
    if ex p then some p else none
  let tryPkg :=
    let p := cand (id ++ "/package.json")
    if ex p then load_package_json mf ex p else none
  (tryPlain id).orElse fun _ =>
  (tryPlain (id ++ ".mjs")).orElse fun _ =>
  (tryPlain (id ++ ".js")).orElse fun _ =>
  (tryPlain (id ++ ".json")).orElse fun _ =>
  tryPkg.orElse fun _ =>
  (tryPlain (id ++ "/index.mjs")).orElse fun _ =>
  (tryPlain (id ++ "/index.js")).orElse fun _ =>
  tryPlain (id ++ "/index.json")

/-- The candidate test actually applied by the code at each position:
existence, with `main` redirection for any candidate named package.json. -/
def tryCandidate (ex : PathT → Bool) (mf : PathT → Option String) (p : PathT) :
    Option PathT :=
  if ex p then
    if path_filename p ≠ some "package.json" then some p
    else
      match load_package_json mf ex p with
      | none => none
      | some mp => if ex mp then some mp else none
  else none

/-- The eight candidate paths in source order. -/
def moduleCandidates (id : String) (origin : Option String) (sys_origin : String) :
    List PathT :=
  moduleSuffixes.map (fun tmpl => candidateOf id origin sys_origin (tmpl id))

theorem findLoop_eq_findSome (ex : PathT → Bool) (mf : PathT → Option String)
    (id : String) (origin : Option String) (sys_origin : String) :
    ∀ l : List (String → String),
      findLoop ex mf id origin sys_origin l
        = (l.map (fun tmpl => candidateOf id origin sys_origin (tmpl id))).findSome?
            (tryCandidate ex mf) := by
  intro l
  induction l with
  | nil => rfl
  | cons tmpl rest ih =>
      simp only [findLoop, List.map_cons, List.findSome?]
      by_cases hex : ex (candidateOf id origin sys_origin (tmpl id))
      · by_cases hfn : path_filename (candidateOf id origin sys_origin (tmpl id))
            ≠ some "package.json"
        · simp [tryCandidate, hex, hfn]
        · match hld : load_package_json mf ex (candidateOf id origin sys_origin (tmpl id)) with
          | none => simp [tryCandidate, hex, hfn, hld, ih]
          | some mp =>
              by_cases hmp : ex mp
              · simp [tryCandidate, hex, hfn, hld, hmp]
              · simp [tryCandidate, hex, hfn, hld, hmp, ih]
      · simp [tryCandidate, hex, ih]

/-- Errors raised by `js_require`. -/
inductive RequireErr where
  | typeErr (msg : String)
  | referenceErr (id : String)
deriving DecidableEq, Repr

/-- The module search roots used by `js_require`, in order. -/
def js_require_paths : List String := ["$/lib", "#/cell_modules", "#/runtime"]

/-- The resolution part of `js_require` from `build.c`: a relative specifier
with no origin module is a TypeError; otherwise the search roots are tried
in order and the first hit wins, a miss being a ReferenceError. -/
def js_require_resolve (ex : PathT → Bool) (mf : PathT → Option String)
    (parent_id : Option String) (id : String) : Except RequireErr PathT :=
  if parent_id = none ∧ isRelativeId id = true then
    .error (.typeErr "relative require not allowed in global code")
  else
    match js_require_paths.findSome? (fun sys => find_cjs_module ex mf id parent_id sys) with
    | some p => .ok p
    | none => .error (.referenceErr id)

/-- Existence oracle for the C6 counterexample: only
`#/runtime/mod/package.json` and `#/runtime/mod/other.js` exist. -/
def c6ex : PathT → Bool := fun p =>
  p = ⟨false, ["#", "runtime", "mod", "package.json"], false⟩ ∨
  p = ⟨false, ["#", "runtime", "mod", "other.js"], false⟩

/-- `main`-field oracle for the C6 counterexample: the package.json decodes
with `main` = `other.js`. -/
def c6mf : PathT → Option String := fun p =>
  if p = ⟨false, ["#", "runtime", "mod", "package.json"], false⟩ then some "other.js"
  else none

/-- Claim C6 is false on the code: for the specifier `mod/package.json`, the
first existing candidate is `#/runtime/mod/package.json` itself, but
`find_cjs_module` applies the package.json `main` redirection to it (the
test is by candidate filename, not candidate position) and returns
`#/runtime/mod/other.js` instead of the first existing candidate. -/
theorem C6_counterexample :
    find_cjs_module c6ex c6mf "mod/package.json" none "#/runtime"
      = some ⟨false, ["#", "runtime", "mod", "other.js"], false⟩ ∧
    find_cjs_module_claim c6ex c6mf "mod/package.json" none "#/runtime"
      = some ⟨false, ["#", "runtime", "mod", "package.json"], false⟩ ∧
    (⟨false, ["#", "runtime", "mod", "other.js"], false⟩ : PathT)
      ≠ ⟨false, ["#", "runtime", "mod", "package.json"], false⟩ := by
  refine ⟨by decide, by decide, by decide⟩

/-- C6 (amended): module resolution tries the candidates `<id>`, `<id>.mjs`,
`<id>.js`, `<id>.json`, `<id>/package.json`, `<id>/index.mjs`,
`<id>/index.js`, `<id>/index.json` in exactly that order and returns the
first that succeeds, where a candidate whose *filename* is package.json —
the `<id>/package.json` candidate, but also a bare `<id>` ending in
`/package.json` — succeeds only via its `main` field (which must name an
existing file, returned in its place); and a relative require (`./` or
`../`) from global code (origin null) is rejected with a TypeError
`relative require not allowed in global code`. -/
theorem C6_module_resolution (ex : PathT → Bool) (mf : PathT → Option String) :
    (∀ id origin sys_origin,
      find_cjs_module ex mf id origin sys_origin
        = (moduleCandidates id origin sys_origin).findSome? (tryCandidate ex mf)) ∧
    (∀ id, isRelativeId id = true →
      js_require_resolve ex mf none id
        = .error (.typeErr "relative require not allowed in global code")) := by
  constructor
  · intro id origin sys_origin
    exact findLoop_eq_findSome ex mf id origin sys_origin moduleSuffixes
  · intro id hrel
    simp [js_require_resolve, hrel]

/-- Witness for C6 at a concrete relative specifier and candidate list. -/
theorem C6_witness :
    js_require_resolve c6ex c6mf none "./util.js"
      = .error (.typeErr "relative require not allowed in global code") ∧
    find_cjs_module c6ex c6mf "mod" none "#/runtime"
      = (moduleCandidates "mod" none "#/runtime").findSome? (tryCandidate c6ex c6mf) :=
  ⟨(C6_module_resolution c6ex c6mf).2 "./util.js" (by decide),
   (C6_module_resolution c6ex c6mf).1 "mod" none "#/runtime"⟩

/-! ## The build driver (`build_run`, `write_manifests`, `clean_old_artifacts`)

Targets are embedded by their output paths (`target_path`); the recursive
`target_build` routine lives in `target.c`, which is not among the sources,
so the per-target build step is abstracted as a state transformer supplied
to `build_run`. -/

/-- A JS value as the manifest validation observes it: a string, or
anything else (including absent, i.e. `none` at the field). -/
inductive JsVal where
  | str (s : String)
  | nonstr
deriving DecidableEq, Repr

/-- The game descriptor object populated by the Cellscript. -/
structure Descriptor where
  name : Option JsVal
  author : Option JsVal
  summary : Option JsVal
  resolution : Option JsVal
  main : Option JsVal
deriving DecidableEq, Repr

/-- `duk_is_string`-style view of a descriptor field. -/
def isStr : Option JsVal → Option String
  | some (.str s) => some s
  | _ => none

/-- Whitespace as skipped by `sscanf`'s `%d`. -/
def isWs (c : Char) : Bool :=
  c = ' ' ∨ c = '\t' ∨ c = '\n' ∨ c = '\r'

def skipWs : List Char → List Char
  | [] => []
  | c :: rest => if isWs c then skipWs rest else c :: rest

def takeDigits : List Char → List Char × List Char
  | [] => ([], [])
  | c :: rest =>
      if c.isDigit then
        let (ds, rem) := takeDigits rest
        (c :: ds, rem)
      else ([], c :: rest)

def digitsToNat (ds : List Char) : Nat :=
  ds.foldl (fun acc c => acc * 10 + (c.toNat - 48)) 0

/-- `sscanf` `%d`: skip whitespace, optional sign, at least one digit. -/
def parseIntC (cs : List Char) : Option (Int × List Char) :=
  let cs := skipWs cs
  match cs with
  | '+' :: rest =>
      let (ds, rem) := takeDigits rest
      if ds.isEmpty then none else some ((digitsToNat ds : Int), rem)
  | '-' :: rest =>
      let (ds, rem) := takeDigits rest
      if ds.isEmpty then none else some (-(digitsToNat ds : Int), rem)
  | _ =>
      let (ds, rem) := takeDigits cs
      if ds.isEmpty then none else some ((digitsToNat ds : Int), rem)

/-- `sscanf(s, "%dx%d", &w, &h) == 2`: two C-scanned integers joined by a
literal `x`; trailing characters are ignored. -/
def scan_resolution (s : String) : Option (Int × Int) :=
  match parseIntC s.data with
  | none => none
  | some (w, rest) =>
      match rest with
      | 'x' :: rest2 =>
          match parseIntC rest2 with
          | none => none
          | some (h, _) => some (w, h)
      | _ => none

/-- The build driver's state: filesystem, visor, descriptor, the previous
run's artifact list, the targets' output paths, and the script mtime. -/
structure BuildSt where
  fs : FsSt
  vis : Visor
  descriptor : Descriptor
  artifacts : List String
  targets : List PathT
  timestamp : Nat
deriving DecidableEq, Repr

/-- Kernel-reducible string comparison (byte order, like `strcmp`). -/
def listCharLe : List Char → List Char → Bool
  | [], _ => true
  | _ :: _, [] => false
  | a :: as, b :: bs =>
      if a.toNat < b.toNat then true
      else if b.toNat < a.toNat then false
      else listCharLe as bs

def strLe (a b : String) : Bool :=
  listCharLe a.data b.data

/-- Insertion sort by `strcmp` order — the model of `vector_sort` with
`sort_targets_by_path`. -/
def insertSorted (s : String) : List String → List String
  | [] => [s]
  | t :: rest => if strLe s t then s :: t :: rest else t :: insertSorted s rest

def sortPaths (l : List String) : List String :=
  l.foldr insertSorted []

/-- The conflict-detection walk of `build_run`: `last_filename` starts as
the empty string and `num_matches` as 1; a filename equal to the previous
one bumps the run length, a differing one flushes an error for the closed
run — naming the *current* filename — and the final run is flushed after
the loop, naming the last filename. -/
def conflictScan : List String → String → Nat → List (Nat × String)
  | [], cur, nm => if nm > 1 then [(nm, cur)] else []
  | f :: rest, cur, nm =>
      if f = cur then conflictScan rest f (nm + 1)
      else (if nm > 1 then [(nm, f)] else []) ++ conflictScan rest f 1

def conflictErrors (paths : List String) : List (Nat × String) :=
  conflictScan (sortPaths paths) "" 1

/-- The conflict-detection phase of `build_run`: emit one visor error per
detected run. -/
def conflictPhase (st : BuildSt) : BuildSt :=
  let v := (conflictErrors (st.targets.map path_cstr)).foldl
    (fun v e => visor_error v (.conflict e.1 e.2)) st.vis
  { st with vis := v }

/-- The target-building phase of `build_run`: each target whose output path
has first hop `@` is built by the supplied `target_build` step (from
`target.c`, not among the sources); others are skipped. -/
def buildPhase (doTarget : BuildSt → PathT → BuildSt) (st : BuildSt) : BuildSt :=
  st.targets.foldl
    (fun s t => if t.hops.head? = some "@" then doTarget s t else s) st

/-- `clean_old_artifacts` from `build.c`: unlink every artifact of the
previous run, keeping (when asked) those present in this run's artifact
list. -/
def clean_old_artifacts (st : BuildSt) (keep_targets : Bool) : BuildSt :=
  let fs1 := st.artifacts.foldl
    (fun fs a => if keep_targets ∧ a ∈ st.vis.filenames then fs else fsUnlink fs a)
    st.fs
  { st with fs := fs1 }

/-- A definite rendering of the Sphere v2 JSON manifest (the JSON encoder
is the engine's; only the fact of the write matters here). -/
def jsValRender : Option JsVal → String
  | some (.str s) => "str:" ++ s
  | some .nonstr => "nonstr"
  | none => "undefined"

def jsonRender (d : Descriptor) : String :=
  "json(name=" ++ jsValRender d.name ++ ",author=" ++ jsValRender d.author
    ++ ",summary=" ++ jsValRender d.summary ++ ",resolution=" ++ jsValRender d.resolution
    ++ ",main=" ++ jsValRender d.main ++ ")"

/-- The `game.sgm` key-value rendering written by `write_manifests`. -/
def sgmRender (nameV authorV summaryV : String) (w h : Int) (script : String) : String :=
  "name=" ++ nameV ++ "\nauthor=" ++ authorV ++ "\ndescription=" ++ summaryV
    ++ "\nscreen_width=" ++ toString w ++ "\nscreen_height=" ++ toString h
    ++ "\nscript=" ++ script ++ "\n"

/-- A JSON array of strings, as written to `artifacts.json`. -/
def jsonStrArr (xs : List String) : String :=
  "[" ++ String.intercalate "," (xs.map (fun s => "\"" ++ s ++ "\"")) ++ "]"

/-- `write_manifests` from `build.c`: substitute placeholders (with a
warning) for a missing or non-string `name` and `author` and (without a
warning) for `summary`; fail with a visor error when `resolution` does not
scan as `%dx%d` or when `main` is not a string, resolves (against `@/`)
outside the `@` prefix, or names a missing file; otherwise rewrite
`descriptor.main` to the canonical path and write `game.sgm` and
`game.json`. -/
def wm_subst (st : BuildSt) : (String × String × String) × BuildSt :=
  let p1 := match isStr st.descriptor.name with
    | some s => (s, st)
    | none => ("Untitled", { st with vis := visor_warn st.vis (.missingField "name") })
  let p2 := match isStr st.descriptor.author with
    | some s => (s, p1.2)
    | none => ("Author Unknown", { p1.2 with vis := visor_warn p1.2.vis (.missingField "author") })
  ((p1.1, p2.1, (isStr st.descriptor.summary).getD "No summary provided."), p2.2)

/-- The successful tail of `write_manifests`: canonicalize `main` into the
descriptor, render the SGMv1 manifest (with the script path made relative
to `@/scripts`), and write `game.sgm` then `game.json`. -/
def wm_success (now : Nat) (nameV authorV summaryV : String) (st : BuildSt)
    (wh : Int × Int) (main_path : PathT) : Bool × BuildSt :=
  let d2 := { st.descriptor with main := some (.str (path_cstr main_path)) }
  let st1 := { st with descriptor := d2 }
  let script_path := fs_relative_path (path_cstr main_path) "@/scripts"
  let sgm := sgmRender nameV authorV summaryV wh.1 wh.2 (path_cstr script_path)
  let st2 := { st1 with fs := writeFile st1.fs "@/game.sgm" sgm now }
  let st3 := { st2 with fs := writeFile st2.fs "@/game.json" (jsonRender st2.descriptor) now }
  (true, st3)

/-- The validating tail of `write_manifests`: fail on an unscannable
`resolution` or an invalid `main`; otherwise canonicalize `main` into the
descriptor and write `game.sgm` and `game.json`. -/
def wm_tail (now : Nat) (nameV authorV summaryV : String) (st : BuildSt) : Bool × BuildSt :=
  match (isStr st.descriptor.resolution).bind (fun rs => scan_resolution rs) with
  | none => (false, { st with vis := visor_error st.vis (.missingField "resolution") })
  | some wh =>
      match isStr st.descriptor.main with
      | none => (false, { st with vis := visor_error st.vis (.missingField "main") })
      | some mainS =>
          let main_path := fs_full_path mainS (some "@/")
          if main_path.hops.head? ≠ some "@" then
            let v := visor_error st.vis (.illegalMainPrefix (main_path.hops.head?.getD ""))
            (false, { st with vis := v })
          else if (lookupFile st.fs (path_cstr main_path)).isNone then
            let v := visor_error st.vis (.mainNotFound (path_cstr main_path))
            (false, { st with vis := v })
          else
            wm_success now nameV authorV summaryV st wh main_path

/-- `write_manifests` from `build.c`: substitute placeholders (with a
warning) for a missing or non-string `name` and `author` and (without a
warning) for `summary`; fail with a visor error when `resolution` does not
scan as `%dx%d` or when `main` is not a string, resolves (against `@/`)
outside the `@` prefix, or names a missing file; otherwise rewrite
`descriptor.main` to the canonical path and write `game.sgm` and
`game.json`. -/
def write_manifests (now : Nat) (st : BuildSt) : Bool × BuildSt :=
  let r := wm_subst st
  wm_tail now r.1.1 r.1.2.1 r.1.2.2 r.2

/-- The debug source-map write; the file-map content is the engine's JSON
encoding of target/source pairs (not inspected by any claim). -/
def writeSources (now : Nat) (st : BuildSt) : BuildSt :=
  { st with fs := writeFile st.fs "@/sources.json" "fileMap" now }

/-- `build_run` from `build.c`: detect conflicts (aborting before anything
else when any are found); build the `@/`-rooted targets; with no errors,
clean stale artifacts and write the manifests (deleting them again when
manifest writing fails), the optional source map, and `artifacts.json`;
with errors, delete `game.json` and `game.sgm`.  Every early exit jumps
past the `artifacts.json` write.  Returns whether the final error count is
zero. -/
def build_run (doTarget : BuildSt → PathT → BuildSt) (wantDebug : Bool) (now : Nat)
    (st : BuildSt) : Bool × BuildSt :=
  let st1 := conflictPhase st
  if st1.vis.num_errors > 0 then
    (decide (st1.vis.num_errors = 0), st1)
  else
    let st2 := buildPhase doTarget st1
    if st2.vis.num_errors = 0 then
      let st3 := clean_old_artifacts st2 true
      match write_manifests now st3 with
      | (false, st4) =>
          let st5 := { st4 with fs := fsUnlink (fsUnlink st4.fs "@/game.json") "@/game.sgm" }
          (decide (st5.vis.num_errors = 0), st5)
      | (true, st4) =>
          let st5 := if wantDebug then writeSources now st4
                     else { st4 with fs := fsUnlink st4.fs "@/sources.json" }
          let st6 := { st5 with fs := writeFile st5.fs "@/artifacts.json" (jsonStrArr st5.vis.filenames) now }
          (decide (st6.vis.num_errors = 0), st6)
    else
      let st5 := { st2 with fs := fsUnlink (fsUnlink st2.fs "@/game.json") "@/game.sgm" }
      (decide (st5.vis.num_errors = 0), st5)

/-! ## Claim C3 — conflict detection -/

/-- A concrete build state with a 2-way conflict on `@/x.txt` followed (in
sort order) by the unrelated target `@/z.txt`. -/
def c3st : BuildSt :=
  { fs := ⟨[], []⟩
    vis := ⟨0, 0, [], [], []⟩
    descriptor := ⟨none, none, none, none, none⟩
    artifacts := []
    targets := [path_new "@/x.txt", path_new "@/x.txt", path_new "@/z.txt"]
    timestamp := 0 }

/-- A ghost-instrumented build step that records every invocation, proving
that no target was built. -/
def c3doTarget : BuildSt → PathT → BuildSt :=
  fun s _ => { s with vis := { s.vis with filenames := s.vis.filenames ++ ["built"] } }

/-- Claim C3 meets a code bug: the conflict-detection walk reports a run of
duplicates that ends mid-list under the *following* filename — here the
2-way conflict on `@/x.txt` is reported as a conflict on `@/z.txt` — while
the claim (and the spec's conflict scenario) expects the error to name the
shared path.  The error count is still one per run and no target is built
(the ghost log stays empty), and the run fails. -/
theorem C3_bug_eval :
    (build_run c3doTarget false 0 c3st).2.vis.errLog = [VisMsg.conflict 2 "@/z.txt"] ∧
    (build_run c3doTarget false 0 c3st).2.vis.errLog ≠ [VisMsg.conflict 2 "@/x.txt"] ∧
    (build_run c3doTarget false 0 c3st).2.vis.filenames = [] ∧
    (build_run c3doTarget false 0 c3st).1 = false := by
  refine ⟨by decide, by decide, by decide, by decide⟩

/-! ## Claim C4 — failing builds and the manifests -/

theorem lookupA_removeA_ne (l : List (String × FileEntry)) (p q : String) (h : q ≠ p) :
    lookupA (removeA l p) q = lookupA l q := by
  induction l with
  | nil => rfl
  | cons e rest ih =>
      by_cases he : e.1 = p
      · rw [removeA]
        simp only [he, if_true]
        rw [ih, lookupA]
        have : e.1 ≠ q := by rw [he]; exact fun hc => h hc.symm
        simp [this]
      · rw [removeA]
        simp only [he, if_false]
        rw [lookupA, lookupA]
        by_cases hf : e.1 = q
        · simp [hf]
        · simp [hf, ih]

theorem lookupFile_writeFile_ne (fs : FsSt) (p q c : String) (m : Nat) (h : q ≠ p) :
    lookupFile (writeFile fs p c m) q = lookupFile fs q := by
  simp only [lookupFile, writeFile, lookupA]
  have : ¬(p = q) := fun hc => h hc.symm
  simp only [this, if_false]
  exact lookupA_removeA_ne fs.files p q h

/-- `build_run` returns precisely whether the final error count is zero. -/
theorem build_run_retval (doTarget : BuildSt → PathT → BuildSt) (wantDebug : Bool)
    (now : Nat) (st : BuildSt) :
    (build_run doTarget wantDebug now st).1
      = decide ((build_run doTarget wantDebug now st).2.vis.num_errors = 0) := by
  unfold build_run
  by_cases h1 : (conflictPhase st).vis.num_errors > 0
  · simp [h1]
  · simp only [h1, if_false]
    by_cases h2 : (buildPhase doTarget (conflictPhase st)).vis.num_errors = 0
    · simp only [h2, if_true]
      match hwm : write_manifests now (clean_old_artifacts (buildPhase doTarget (conflictPhase st)) true) with
      | (false, st4) => simp [hwm]
      | (true, st4) =>
          by_cases hd : wantDebug
          · simp [hwm, hd, writeSources]
          · simp [hwm, hd]
    · simp [h2]

/-- A prior run's manifests and artifact list, plus a conflicting target
pair, for the C4 counterexample. -/
def c4st : BuildSt :=
  { fs := ⟨[("@/game.json", ⟨"oldjson", 1⟩), ("@/game.sgm", ⟨"oldsgm", 1⟩),
            ("@/artifacts.json", ⟨"OLD", 1⟩)], []⟩
    vis := ⟨0, 0, [], [], []⟩
    descriptor := ⟨none, none, none, none, none⟩
    artifacts := ["@/old.txt"]
    targets := [path_new "@/x.txt", path_new "@/x.txt"]
    timestamp := 0 }

/-- Claim C4 is false on the code: this run ends with a non-zero error
count (a conflict) and returns false, yet `@/game.json` is *not* deleted
(the conflict abort jumps straight to `finished`) and `@/artifacts.json`
still holds the previous run's bytes — every error path jumps past the
`artifacts.json` write, so it is never updated to the new artifact set. -/
theorem C4_counterexample :
    (build_run (fun s _ => s) false 7 c4st).2.vis.num_errors ≠ 0 ∧
    (build_run (fun s _ => s) false 7 c4st).1 = false ∧
    lookupFile (build_run (fun s _ => s) false 7 c4st).2.fs "@/game.json"
      = some ⟨"oldjson", 1⟩ ∧
    lookupFile (build_run (fun s _ => s) false 7 c4st).2.fs "@/artifacts.json"
      = some ⟨"OLD", 1⟩ := by
  refine ⟨by decide, by decide, by decide, by decide⟩

/-- C4 (amended): a build run that ends with a non-zero error count returns
false and never writes `@/artifacts.json` (the previous run's file, if
any, is left untouched).  `@/game.json` and `@/game.sgm` are deleted when
the errors arose after conflict detection — whether in the build phase or
in manifest writing — but a conflict-stage abort leaves the filesystem
exactly as it was. -/
theorem C4_failing_build (doTarget : BuildSt → PathT → BuildSt) (wantDebug : Bool)
    (now : Nat) (st : BuildSt) :
    ((build_run doTarget wantDebug now st).2.vis.num_errors ≠ 0 →
      (build_run doTarget wantDebug now st).1 = false) ∧
    ((conflictPhase st).vis.num_errors > 0 →
      (build_run doTarget wantDebug now st).2 = conflictPhase st) ∧
    ((conflictPhase st).vis.num_errors = 0 →
      (buildPhase doTarget (conflictPhase st)).vis.num_errors ≠ 0 →
      (build_run doTarget wantDebug now st).2.fs
        = fsUnlink (fsUnlink (buildPhase doTarget (conflictPhase st)).fs "@/game.json")
            "@/game.sgm") ∧
    ((conflictPhase st).vis.num_errors = 0 →
      (buildPhase doTarget (conflictPhase st)).vis.num_errors = 0 →
      ∀ st4, write_manifests now
          (clean_old_artifacts (buildPhase doTarget (conflictPhase st)) true)
          = (false, st4) →
        (build_run doTarget wantDebug now st).2.fs
          = fsUnlink (fsUnlink st4.fs "@/game.json") "@/game.sgm") := by
  refine ⟨?_, ?_, ?_, ?_⟩
  · intro h
    rw [build_run_retval]
    simp [h]
  · intro h1
    simp [build_run, h1]
  · intro h1 h2
    have h1' : ¬((conflictPhase st).vis.num_errors > 0) := by omega
    simp [build_run, h1', h2]
  · intro h1 h2 st4 hwm
    have h1' : ¬((conflictPhase st).vis.num_errors > 0) := by omega
    simp [build_run, h1', h2, hwm]

/-- Witness for C4 at the concrete conflict state. -/
theorem C4_witness :
    (build_run (fun s _ => s) false 7 c4st).1 = false ∧
    (build_run (fun s _ => s) false 7 c4st).2 = conflictPhase c4st :=
  ⟨(C4_failing_build (fun s _ => s) false 7 c4st).1 (by decide),
   (C4_failing_build (fun s _ => s) false 7 c4st).2.1 (by decide)⟩

/-! ## Claim C8 — descriptor validation in `write_manifests` -/

theorem wm_subst_spec (st : BuildSt) :
    (wm_subst st).2.fs = st.fs ∧
    (wm_subst st).2.descriptor = st.descriptor ∧
    (wm_subst st).2.vis.num_errors = st.vis.num_errors ∧
    (wm_subst st).2.vis.errLog = st.vis.errLog ∧
    (wm_subst st).2.vis.warnLog = st.vis.warnLog
      ++ (if (isStr st.descriptor.name).isNone then [VisMsg.missingField "name"] else [])
      ++ (if (isStr st.descriptor.author).isNone then [VisMsg.missingField "author"] else []) := by
  rcases hn : isStr st.descriptor.name with _ | ns <;>
    rcases ha : isStr st.descriptor.author with _ | as' <;>
      simp [wm_subst, hn, ha, visor_warn]

theorem wm_tail_spec (now : Nat) (nameV authorV summaryV : String) (st : BuildSt) :
    ((wm_tail now nameV authorV summaryV st).1 = true ↔
      ((isStr st.descriptor.resolution).bind (fun rs => scan_resolution rs)).isSome = true ∧
      ∃ mainS, isStr st.descriptor.main = some mainS ∧
        (fs_full_path mainS (some "@/")).hops.head? = some "@" ∧
        (lookupFile st.fs (path_cstr (fs_full_path mainS (some "@/")))).isSome = true) ∧
    ((wm_tail now nameV authorV summaryV st).1 = false →
      (wm_tail now nameV authorV summaryV st).2.vis.num_errors = st.vis.num_errors + 1 ∧
      (wm_tail now nameV authorV summaryV st).2.fs = st.fs) ∧
    ((wm_tail now nameV authorV summaryV st).1 = true →
      (wm_tail now nameV authorV summaryV st).2.vis = st.vis ∧
      (lookupFile (wm_tail now nameV authorV summaryV st).2.fs "@/game.sgm").isSome = true ∧
      (lookupFile (wm_tail now nameV authorV summaryV st).2.fs "@/game.json").isSome = true) ∧
    (wm_tail now nameV authorV summaryV st).2.vis.warnLog = st.vis.warnLog := by
  rcases hr : (isStr st.descriptor.resolution).bind (fun rs => scan_resolution rs) with _ | wh
  · simp [wm_tail, hr, visor_error]
  · rcases hm : isStr st.descriptor.main with _ | ms
    · simp [wm_tail, hr, hm, visor_error]
    · by_cases hp : (fs_full_path ms (some "@/")).hops.head? = some "@"
      · by_cases hl : (lookupFile st.fs (path_cstr (fs_full_path ms (some "@/")))).isNone
        · refine ⟨?_, ?_, ?_, ?_⟩
          · simp only [wm_tail, hr, hm, hp]
            simp [hl, visor_error, Option.isNone_iff_eq_none.mp hl]
          · intro _
            simp [wm_tail, hr, hm, hp, hl, visor_error]
          · intro h
            exact absurd h (by simp [wm_tail, hr, hm, hp, hl])
          · simp [wm_tail, hr, hm, hp, hl, visor_error]
        · have hsome : (lookupFile st.fs (path_cstr (fs_full_path ms (some "@/")))).isSome = true := by
            rcases hx : lookupFile st.fs (path_cstr (fs_full_path ms (some "@/"))) with _ | e
            · rw [hx] at hl; simp at hl
            · rfl
          have hred : wm_tail now nameV authorV summaryV st
              = wm_success now nameV authorV summaryV st wh (fs_full_path ms (some "@/")) := by
            simp [wm_tail, hr, hm, hp, hl]
          refine ⟨?_, ?_, ?_, ?_⟩
          · rw [hred]
            exact ⟨fun _ => ⟨rfl, ms, rfl, hp, hsome⟩, fun _ => rfl⟩
          · intro h
            rw [hred] at h
            exact absurd h (by simp [wm_success])
          · intro _
            rw [hred]
            refine ⟨rfl, ?_, ?_⟩
            · show (lookupFile (writeFile (writeFile st.fs "@/game.sgm"
                (sgmRender nameV authorV summaryV wh.1 wh.2
                  (path_cstr (fs_relative_path (path_cstr (fs_full_path ms (some "@/"))) "@/scripts"))) now)
                "@/game.json" _ now) "@/game.sgm").isSome = true
              rw [lookupFile_writeFile_ne _ _ _ _ _ (by decide), lookupFile_writeFile_self]
              rfl
            · show (lookupFile (writeFile _ "@/game.json" _ now) "@/game.json").isSome = true
              rw [lookupFile_writeFile_self]
              rfl
          · rw [hred]
            rfl
      · refine ⟨?_, ?_, ?_, ?_⟩
        · simp [wm_tail, hr, hm, hp, visor_error]
        · intro _
          simp [wm_tail, hr, hm, hp, visor_error]
        · intro h
          exact absurd h (by simp [wm_tail, hr, hm, hp])
        · simp [wm_tail, hr, hm, hp, visor_error]

/-- Descriptor for the C8 counterexample: `summary` is absent and
`resolution` is `320x240x9` — not of the form width`x`height — while
everything else is valid. -/
def c8desc : Descriptor :=
  { name := some (.str "Game"), author := some (.str "Me"), summary := none,
    resolution := some (.str "320x240x9"), main := some (.str "main.js") }

def c8st : BuildSt :=
  { fs := ⟨[("@/main.js", ⟨"code", 1⟩)], []⟩
    vis := ⟨0, 0, [], [], []⟩
    descriptor := c8desc
    artifacts := []
    targets := []
    timestamp := 0 }

/-- Claim C8 is false on the code in two clauses at once: with `summary`
absent the code substitutes the placeholder silently (no warning is
emitted, the warning count stays 0), and with `resolution` = `320x240x9`
(which does not match width`x`height — it has trailing text) `sscanf`
still scans two integers, so validation succeeds instead of raising the
claimed fatal error. -/
theorem C8_counterexample :
    (write_manifests 5 c8st).1 = true ∧
    (write_manifests 5 c8st).2.vis.num_warns = 0 := by
  refine ⟨by decide, by decide⟩

/-- C8 (amended): validation substitutes placeholders for non-string
`name` and `author` with one warning each, and for `summary` silently
(no warning); it fails — one visor error, nothing written — exactly unless
`resolution` is a string accepted by `sscanf("%dx%d")` (two C-scanned
integers joined by `x`; trailing text is ignored) and `main` is a string
that resolves against `@/` to a first-hop-`@` path naming an existing
file; on success the error count is unchanged and `game.sgm` and
`game.json` are written. -/
theorem C8_manifest_validation (now : Nat) (st : BuildSt) :
    ((write_manifests now st).2.vis.warnLog = st.vis.warnLog
      ++ (if (isStr st.descriptor.name).isNone then [VisMsg.missingField "name"] else [])
      ++ (if (isStr st.descriptor.author).isNone then [VisMsg.missingField "author"] else [])) ∧
    ((write_manifests now st).1 = true ↔
      ((isStr st.descriptor.resolution).bind (fun rs => scan_resolution rs)).isSome = true ∧
      ∃ mainS, isStr st.descriptor.main = some mainS ∧
        (fs_full_path mainS (some "@/")).hops.head? = some "@" ∧
        (lookupFile st.fs (path_cstr (fs_full_path mainS (some "@/")))).isSome = true) ∧
    ((write_manifests now st).1 = false →
      (write_manifests now st).2.vis.num_errors = st.vis.num_errors + 1 ∧
      (write_manifests now st).2.fs = st.fs) ∧
    ((write_manifests now st).1 = true →
      (write_manifests now st).2.vis.num_errors = st.vis.num_errors ∧
      (lookupFile (write_manifests now st).2.fs "@/game.sgm").isSome = true ∧
      (lookupFile (write_manifests now st).2.fs "@/game.json").isSome = true) := by
  have hs := wm_subst_spec st
  have ht := wm_tail_spec now (wm_subst st).1.1 (wm_subst st).1.2.1 (wm_subst st).1.2.2
    (wm_subst st).2
  have hwm : write_manifests now st
      = wm_tail now (wm_subst st).1.1 (wm_subst st).1.2.1 (wm_subst st).1.2.2
        (wm_subst st).2 := rfl
  rw [hwm]
  refine ⟨?_, ?_, ?_, ?_⟩
  · rw [ht.2.2.2, hs.2.2.2.2]
  · rw [ht.1, hs.2.1, hs.1]
  · intro h
    obtain ⟨he, hf⟩ := ht.2.1 h
    exact ⟨by rw [he, hs.2.2.1], hf.trans hs.1⟩
  · intro h
    obtain ⟨hv, h1, h2⟩ := ht.2.2.1 h
    refine ⟨?_, h1, h2⟩
    rw [hv, hs.2.2.1]

/-- Witness for C8 at a fully valid descriptor. -/
def c8okSt : BuildSt :=
  { fs := ⟨[("@/main.js", ⟨"code", 1⟩)], []⟩
    vis := ⟨0, 0, [], [], []⟩
    descriptor := { name := some (.str "G"), author := some (.str "A"),
                    summary := some (.str "S"), resolution := some (.str "320x240"),
                    main := some (.str "main.js") }
    artifacts := []
    targets := []
    timestamp := 0 }

theorem C8_witness :
    (write_manifests 5 c8okSt).2.vis.num_errors = c8okSt.vis.num_errors ∧
    (lookupFile (write_manifests 5 c8okSt).2.fs "@/game.sgm").isSome = true ∧
    (lookupFile (write_manifests 5 c8okSt).2.fs "@/game.json").isSome = true :=
  (C8_manifest_validation 5 c8okSt).2.2.2 (by decide)
